import Mathlib

/-!
Verification of the shared-memory bounded-queue producer
(`producer/test.cpp` of the IPC repository).

The shared region is modelled as a byte-addressed memory `Mem : Int → Nat`
(one `Nat` per byte offset; the producer only ever stores values `< 256`).
`memcpy` of a byte list becomes `writeList`, `memset(p, 0, n)` becomes
`zeroFill`.  Four-byte integers are stored little-endian exactly as the
x86 `memcpy(p, &v, 4)` in the source does; `float` confidences are carried
as their 32-bit patterns (`Nat` below `2^32`), since `write_frame` only
ever copies their bytes and never does arithmetic on them.
-/

-- ---------------- CONFIG (test.cpp lines 22-27) ----------------

def INPUT_WIDTH : Nat := 640
def INPUT_HEIGHT : Nat := 640
def CHANNELS : Nat := 3
def MAX_DETECTIONS : Nat := 200
def QUEUE_SIZE : Nat := 5

-- ---------------- SIZE CALC (test.cpp lines 40-49) ----------------

/-- `constexpr size_t DET_RECORD_SIZE = 24;` (int + float + 4*int). -/
def DET_RECORD_SIZE : Nat := 24

/-- `SLOT_SIZE = 5*sizeof(int) + MAX_DETECTIONS*DET_RECORD_SIZE + W*H*C`. -/
def SLOT_SIZE : Nat :=
  5 * 4 + MAX_DETECTIONS * DET_RECORD_SIZE + INPUT_WIDTH * INPUT_HEIGHT * CHANNELS

/-- `SHM_SIZE = 3*sizeof(int) + QUEUE_SIZE * SLOT_SIZE`. -/
def SHM_SIZE : Nat := 3 * 4 + QUEUE_SIZE * SLOT_SIZE

/-- Byte count of the image region, `INPUT_WIDTH * INPUT_HEIGHT * CHANNELS`
(test.cpp line 147). -/
def IMAGE_SIZE : Nat := INPUT_WIDTH * INPUT_HEIGHT * CHANNELS

-- ---------------- BYTE-LEVEL MEMORY MODEL ----------------

/-- The mapped shared region: a byte value at every (pointer) offset. -/
def Mem : Type := Int → Nat

/-- `memcpy(base + off, bs.data, bs.length)`: overwrite `bs.length` bytes
starting at `off`, leave everything else unchanged. -/
def writeList (m : Mem) (off : Int) (bs : List Nat) : Mem :=
  fun a => if off ≤ a ∧ a < off + bs.length then bs.getD (a - off).toNat 0 else m a

/-- `memset(base + off, 0, len)`. -/
def zeroFill (m : Mem) (off : Int) (len : Nat) : Mem :=
  fun a => if off ≤ a ∧ a < off + len then 0 else m a

/-- Little-endian bytes of a 32-bit word. -/
def le32 (n : Nat) : List Nat :=
  [n % 256, n / 256 % 256, n / 65536 % 256, n / 16777216 % 256]

/-- Bytes stored by `memcpy(p, &v, 4)` for a C `int` holding `v`
(two's-complement, little-endian). -/
def encInt32 (v : Int) : List Nat := le32 (v.emod 4294967296).toNat

/-- Bytes stored by `memcpy(p, &f, 4)` for a C `float` whose 32-bit
pattern is `bits`. -/
def encFloat32 (bits : Nat) : List Nat := le32 (bits % 4294967296)

/-- The 32-bit word read by `int v = *(int*)(base + off)`, before sign
interpretation. -/
def readU32 (m : Mem) (off : Int) : Nat :=
  m off + 256 * m (off + 1) + 65536 * m (off + 2) + 16777216 * m (off + 3)

/-- The C `int` read at byte offset `off` (two's-complement of the
little-endian word). -/
def readI32 (m : Mem) (off : Int) : Int :=
  let n := readU32 m off
  if n < 2147483648 then (n : Int) else (n : Int) - 4294967296

-- ---------------- PRODUCER INPUT (write_frame arguments) ----------------

/-- `cv::Rect`: four C `int` fields, as used by `write_frame`. -/
structure Rect where
  x : Int
  y : Int
  width : Int
  height : Int
  deriving DecidableEq

/-- The per-frame arguments of `write_frame` (test.cpp lines 100-110):
`frame_id`, the parallel detection vectors, and the image buffer of
`frame640` as raw bytes (`frame640.total() * frame640.elemSize()` many).
Confidences are carried as float bit patterns. -/
structure FrameInput where
  frame_id : Int
  class_ids : List Int
  confs : List Nat
  boxes : List Rect
  image : List Nat

/-- `int num = (int)boxes.size(); if (num > MAX_DETECTIONS) num = MAX_DETECTIONS;`
(test.cpp lines 120-121). -/
def numDet (inp : FrameInput) : Nat := min inp.boxes.length MAX_DETECTIONS

/-- The 20 header bytes (test.cpp lines 124-128): five consecutive
4-byte stores of `frame_id`, `INPUT_WIDTH`, `INPUT_HEIGHT`, `CHANNELS`,
`num`. -/
def headerBytes (inp : FrameInput) : List Nat :=
  encInt32 inp.frame_id ++ encInt32 (INPUT_WIDTH : Int) ++
  encInt32 (INPUT_HEIGHT : Int) ++ encInt32 (CHANNELS : Int) ++
  encInt32 ((numDet inp : Nat) : Int)

/-- The 24 bytes of detection record `i` when `i < num` (test.cpp lines
133-138): six consecutive 4-byte stores of `class_ids[i]`, `confs[i]`,
`boxes[i].x`, `boxes[i].y`, `boxes[i].width`, `boxes[i].height`. -/
def detEntryBytes (inp : FrameInput) (i : Nat) : List Nat :=
  encInt32 (inp.class_ids.getD i 0) ++ encFloat32 (inp.confs.getD i 0) ++
  encInt32 ((inp.boxes.getD i ⟨0, 0, 0, 0⟩).x) ++
  encInt32 ((inp.boxes.getD i ⟨0, 0, 0, 0⟩).y) ++
  encInt32 ((inp.boxes.getD i ⟨0, 0, 0, 0⟩).width) ++
  encInt32 ((inp.boxes.getD i ⟨0, 0, 0, 0⟩).height)

/-- The 24 bytes written for loop index `i` of the detection loop
(test.cpp lines 131-144): the record fields when `i < num`, otherwise
`memset(p, 0, 24)`. -/
def detRecordBytes (inp : FrameInput) (i : Nat) : List Nat :=
  if i < numDet inp then detEntryBytes inp i else List.replicate 24 0

/-- `uint8_t* slot = shm + 3*sizeof(int) + write_idx * SLOT_SIZE`
(test.cpp line 117). -/
def slotOffset (i : Int) : Int := 12 + i * (SLOT_SIZE : Int)

/-- First `n` iterations of the detection loop: record `i` is written at
`slot + 20 + 24*i`. -/
def detFold (inp : FrameInput) (m : Mem) (slot : Int) (n : Nat) : Mem :=
  (List.range n).foldl
    (fun mm (i : Nat) => writeList mm (slot + 20 + 24 * (i : Int)) (detRecordBytes inp i)) m

/-- The whole detection loop (test.cpp lines 131-144). -/
def writeDets (inp : FrameInput) (m : Mem) (slot : Int) : Mem :=
  detFold inp m slot MAX_DETECTIONS

/-- The header stores (test.cpp lines 124-128). -/
def writeHeader (inp : FrameInput) (m : Mem) (slot : Int) : Mem :=
  writeList m slot (headerBytes inp)

/-- The image stores (test.cpp lines 146-155): `memcpy` of the buffer when
its byte length is exactly `IMAGE_SIZE`, otherwise log and
`memset(p, 0, image_size)`.  The mismatch never aborts `write_frame`. -/
def writeImage (inp : FrameInput) (m : Mem) (slot : Int) : Mem :=
  if inp.image.length = IMAGE_SIZE then writeList m (slot + 4820) inp.image
  else zeroFill m (slot + 4820) IMAGE_SIZE

/-- The control-block updates (test.cpp lines 158-159):
`ctrl[0] = (write_idx + 1) % QUEUE_SIZE` (C `%` truncates, hence `tmod`)
and `ctrl[2]++`. -/
def writeCtrl (w : Int) (m : Mem) : Mem :=
  let m4 := writeList m 0 (encInt32 ((w + 1).tmod (QUEUE_SIZE : Int)))
  writeList m4 8 (encInt32 (readI32 m4 8 + 1))

/-- Memory effect of one `write_frame` call (test.cpp lines 100-165):
read `write_idx = ctrl[0]`, then header, detection loop, image region,
then advance `ctrl[0]` and bump `ctrl[2]`.  The function is total: no
error path escapes it. -/
def write_frame (m : Mem) (inp : FrameInput) : Mem :=
  let w := readI32 m 0
  let slot := slotOffset w
  writeCtrl w (writeImage inp (writeDets inp (writeHeader inp m slot) slot) slot)

/-- `main`'s control-block initialization (test.cpp lines 202-205):
unconditionally `ctrl[0] = 0; ctrl[1] = 0; ctrl[2] = 0;` — there is no
check whether the mapping already existed. -/
def producerInit (m : Mem) : Mem :=
  writeList (writeList (writeList m 0 (encInt32 0)) 4 (encInt32 0)) 8 (encInt32 0)

/-- A sequence of enqueues (the video loop repeatedly calls
`write_frame`, test.cpp line 391). -/
def enqueueAll (m : Mem) (l : List FrameInput) : Mem :=
  l.foldl write_frame m

-- ---------------- EVENT TRACE OF ONE ENQUEUE ----------------

/-- Observable synchronization / store steps of one `write_frame` call. -/
inductive Ev where
  | waitEmpty : Ev
  | acquireLock : Ev
  | write (off : Int) (len : Nat) : Ev
  | releaseLock : Ev
  | signalFull : Ev
  deriving DecidableEq

/-- The steps of `write_frame`, in the statement order of test.cpp lines
111-164: `WaitForSingleObject(semEmpty)`, `WaitForSingleObject(mutex)`,
the header / detection / image / control-block stores, `ReleaseMutex`,
`ReleaseSemaphore(semFull)`. -/
def writeFrameTrace (m : Mem) (inp : FrameInput) : List Ev :=
  let slot := slotOffset (readI32 m 0)
  [Ev.waitEmpty, Ev.acquireLock, Ev.write slot 20] ++
  (List.range MAX_DETECTIONS).map (fun i => Ev.write (slot + 20 + 24 * (i : Int)) 24) ++
  [Ev.write (slot + 4820) IMAGE_SIZE, Ev.write 0 4, Ev.write 8 4,
   Ev.releaseLock, Ev.signalFull]

-- ---------------- SLOT CONTENT SPECIFICATION ----------------

/-- The slot starting at byte offset `off` holds exactly the encoded
header and the 200 encoded detection records of `inp`. -/
def slotFrameSpec (mem : Mem) (off : Int) (inp : FrameInput) : Prop :=
  (∀ j : Nat, j < 20 → mem (off + (j : Int)) = (headerBytes inp).getD j 0) ∧
  (∀ i : Nat, i < MAX_DETECTIONS → ∀ j : Nat, j < 24 →
    mem (off + 20 + 24 * (i : Int) + (j : Int)) = (detRecordBytes inp i).getD j 0)

-- ---------------- BASIC POINTWISE LEMMAS ----------------

theorem writeList_in {m : Mem} {off : Int} {bs : List Nat} {a : Int}
    (h1 : off ≤ a) (h2 : a < off + bs.length) :
    writeList m off bs a = bs.getD (a - off).toNat 0 := by
  simp only [writeList]
  rw [if_pos ⟨h1, h2⟩]

theorem writeList_out {m : Mem} {off : Int} {bs : List Nat} {a : Int}
    (h : a < off ∨ off + bs.length ≤ a) :
    writeList m off bs a = m a := by
  simp only [writeList]
  rw [if_neg]
  omega

theorem zeroFill_in {m : Mem} {off : Int} {len : Nat} {a : Int}
    (h1 : off ≤ a) (h2 : a < off + len) :
    zeroFill m off len a = 0 := by
  simp only [zeroFill]
  rw [if_pos ⟨h1, h2⟩]

theorem zeroFill_out {m : Mem} {off : Int} {len : Nat} {a : Int}
    (h : a < off ∨ off + len ≤ a) :
    zeroFill m off len a = m a := by
  simp only [zeroFill]
  rw [if_neg]
  omega

theorem le32_length (n : Nat) : (le32 n).length = 4 := rfl

theorem encInt32_length (v : Int) : (encInt32 v).length = 4 := rfl

theorem encFloat32_length (b : Nat) : (encFloat32 b).length = 4 := rfl

theorem detEntryBytes_length (inp : FrameInput) (i : Nat) :
    (detEntryBytes inp i).length = 24 := by
  simp [detEntryBytes, encInt32_length, encFloat32_length]

theorem detRecordBytes_length (inp : FrameInput) (i : Nat) :
    (detRecordBytes inp i).length = 24 := by
  unfold detRecordBytes
  split
  · exact detEntryBytes_length inp i
  · simp

theorem headerBytes_length (inp : FrameInput) : (headerBytes inp).length = 20 := by
  simp [headerBytes, encInt32_length]

/-- A 32-bit read only looks at the four bytes of its window. -/
theorem readU32_congr {m1 m2 : Mem} {off : Int}
    (h : ∀ j : Int, off ≤ j → j < off + 4 → m1 j = m2 j) :
    readU32 m1 off = readU32 m2 off := by
  unfold readU32
  rw [h off (by omega) (by omega), h (off + 1) (by omega) (by omega),
      h (off + 2) (by omega) (by omega), h (off + 3) (by omega) (by omega)]

theorem readI32_congr {m1 m2 : Mem} {off : Int}
    (h : ∀ j : Int, off ≤ j → j < off + 4 → m1 j = m2 j) :
    readI32 m1 off = readI32 m2 off := by
  unfold readI32
  rw [readU32_congr h]

/-- Reading back four bytes that hold `le32 n` yields `n` (for a 32-bit `n`). -/
theorem readU32_of_le32 {m : Mem} {off : Int} {n : Nat} (hn : n < 4294967296)
    (hb : ∀ j : Nat, j < 4 → m (off + (j : Int)) = (le32 n).getD j 0) :
    readU32 m off = n := by
  have h0 := hb 0 (by omega)
  have h1 := hb 1 (by omega)
  have h2 := hb 2 (by omega)
  have h3 := hb 3 (by omega)
  simp only [le32, List.getD, List.get?, Int.Nat.cast_ofNat_Int] at h0 h1 h2 h3
  unfold readU32
  norm_num at h0 h1 h2 h3 ⊢
  rw [h0, h1, h2, h3]
  omega

/-- Reading back four bytes that hold `encInt32 v` yields `v`, for `v` in
the nonnegative `int` range. -/
theorem readI32_of_encInt32 {m : Mem} {off : Int} {v : Int}
    (h0 : 0 ≤ v) (h1 : v < 2147483648)
    (hb : ∀ j : Nat, j < 4 → m (off + (j : Int)) = (encInt32 v).getD j 0) :
    readI32 m off = v := by
  have hmod : (v.emod 4294967296).toNat = v.toNat := by
    have he : v.emod 4294967296 = v % 4294967296 := rfl
    rw [he, Int.emod_eq_of_lt h0 (by omega)]
  have hvn : v.toNat < 4294967296 := by omega
  have hread : readU32 m off = v.toNat := by
    apply readU32_of_le32 hvn
    intro j hj
    have := hb j hj
    rwa [encInt32, hmod] at this
  unfold readI32
  rw [hread]
  rw [if_pos (by omega)]
  omega

/-- Round trip through memory for a nonnegative 32-bit `int` store. -/
theorem readI32_writeList_encInt32 (m : Mem) (off : Int) (v : Int)
    (h0 : 0 ≤ v) (h1 : v < 2147483648) :
    readI32 (writeList m off (encInt32 v)) off = v := by
  apply readI32_of_encInt32 h0 h1
  intro j hj
  rw [writeList_in (by omega) (by rw [encInt32_length]; omega)]
  congr 1
  omega

-- ---------------- SIZE NUMERALS ----------------

theorem SLOT_SIZE_eq : SLOT_SIZE = 1233620 := rfl

theorem IMAGE_SIZE_eq : IMAGE_SIZE = 1228800 := rfl

theorem SHM_SIZE_eq : SHM_SIZE = 6168112 := rfl

theorem natCast_tmod (a b : Nat) :
    ((a : Int)).tmod (b : Int) = ((a % b : Nat) : Int) := rfl

-- ---------------- DETECTION LOOP LEMMAS ----------------

theorem detFold_succ (inp : FrameInput) (m : Mem) (slot : Int) (n : Nat) :
    detFold inp m slot (n + 1) =
      writeList (detFold inp m slot n) (slot + 20 + 24 * (n : Int))
        (detRecordBytes inp n) := by
  unfold detFold
  rw [List.range_succ, List.foldl_append]
  rfl

theorem detFold_out {inp : FrameInput} {m : Mem} {slot : Int} {n : Nat} {a : Int}
    (h : a < slot + 20 ∨ slot + 20 + 24 * (n : Int) ≤ a) :
    detFold inp m slot n a = m a := by
  induction n with
  | zero => rfl
  | succ k ih =>
    rw [detFold_succ]
    rw [writeList_out (by rw [detRecordBytes_length]; push_cast at h ⊢; omega)]
    exact ih (by push_cast at h ⊢; omega)

theorem detFold_in {inp : FrameInput} {m : Mem} {slot : Int} {n : Nat}
    {i j : Nat} (hi : i < n) (hj : j < 24) :
    detFold inp m slot n (slot + 20 + 24 * (i : Int) + (j : Int)) =
      (detRecordBytes inp i).getD j 0 := by
  induction n with
  | zero => omega
  | succ k ih =>
    rw [detFold_succ]
    by_cases hik : i = k
    · subst hik
      rw [writeList_in (by push_cast; omega)
            (by rw [detRecordBytes_length]; push_cast; omega)]
      congr 1
      push_cast
      omega
    · rw [writeList_out (by rw [detRecordBytes_length]; push_cast; omega)]
      exact ih (by omega)

-- ---------------- CONTROL-BLOCK UPDATE LEMMAS ----------------

theorem writeCtrl_out {w : Int} {m : Mem} {a : Int}
    (h1 : ¬(0 ≤ a ∧ a < 4)) (h2 : ¬(8 ≤ a ∧ a < 12)) :
    writeCtrl w m a = m a := by
  simp only [writeCtrl]
  rw [writeList_out (by rw [encInt32_length]; omega),
      writeList_out (by rw [encInt32_length]; omega)]

theorem writeCtrl_read0 (u : Nat) (m : Mem) :
    readI32 (writeCtrl (u : Int) m) 0 = (((u + 1) % QUEUE_SIZE : Nat) : Int) := by
  simp only [writeCtrl]
  have hcongr : ∀ j : Int, (0 : Int) ≤ j → j < 0 + 4 →
      writeList (writeList m 0 (encInt32 (((u : Int) + 1).tmod (QUEUE_SIZE : Int)))) 8
        (encInt32 (readI32 (writeList m 0
          (encInt32 (((u : Int) + 1).tmod (QUEUE_SIZE : Int)))) 8 + 1)) j =
      writeList m 0 (encInt32 (((u : Int) + 1).tmod (QUEUE_SIZE : Int))) j := by
    intro j hj1 hj2
    exact writeList_out (by rw [encInt32_length]; omega)
  rw [readI32_congr hcongr]
  have ht : ((u : Int) + 1).tmod (QUEUE_SIZE : Int) = (((u + 1) % QUEUE_SIZE : Nat) : Int) := by
    rw [show ((u : Int) + 1) = ((u + 1 : Nat) : Int) by push_cast; ring]
    exact natCast_tmod (u + 1) QUEUE_SIZE
  rw [ht]
  apply readI32_writeList_encInt32
  · positivity
  · have : (u + 1) % QUEUE_SIZE < QUEUE_SIZE := Nat.mod_lt _ (by norm_num [QUEUE_SIZE])
    have h5 : QUEUE_SIZE = 5 := rfl
    omega

-- ---------------- ONE ENQUEUE, POINTWISE ----------------

theorem write_frame_eq (m : Mem) (inp : FrameInput) (u : Nat)
    (hw : readI32 m 0 = (u : Int)) :
    write_frame m inp =
      writeCtrl (u : Int)
        (writeImage inp
          (writeDets inp (writeHeader inp m (slotOffset (u : Int))) (slotOffset (u : Int)))
          (slotOffset (u : Int))) := by
  simp only [write_frame, hw]

theorem slotOffset_natCast (u : Nat) :
    slotOffset (u : Int) = 12 + (u : Int) * 1233620 := by
  unfold slotOffset
  norm_num [SLOT_SIZE_eq]

/-- Bytes outside the control block and outside the slot selected by the
stored `write_idx` are untouched by one enqueue. -/
theorem write_frame_out {m : Mem} {inp : FrameInput} {u : Nat}
    (hw : readI32 m 0 = (u : Int)) {a : Int}
    (h1 : ¬(0 ≤ a ∧ a < 4)) (h2 : ¬(8 ≤ a ∧ a < 12))
    (h3 : ¬(slotOffset (u : Int) ≤ a ∧ a < slotOffset (u : Int) + (SLOT_SIZE : Int))) :
    write_frame m inp a = m a := by
  have hs := slotOffset_natCast u
  have hu : (0 : Int) ≤ (u : Int) := Int.natCast_nonneg u
  have hS : ((SLOT_SIZE : Nat) : Int) = 1233620 := by norm_num [SLOT_SIZE_eq]
  have hM : ((MAX_DETECTIONS : Nat) : Int) = 200 := rfl
  have hI : ((IMAGE_SIZE : Nat) : Int) = 1228800 := rfl
  rw [write_frame_eq m inp u hw, writeCtrl_out h1 h2]
  unfold writeImage
  split
  · rename_i hlen
    rw [writeList_out (by rw [hlen, IMAGE_SIZE_eq]; omega)]
    unfold writeDets
    rw [detFold_out (by omega)]
    unfold writeHeader
    rw [writeList_out (by rw [headerBytes_length]; omega)]
  · rw [zeroFill_out (by rw [IMAGE_SIZE_eq]; omega)]
    unfold writeDets
    rw [detFold_out (by omega)]
    unfold writeHeader
    rw [writeList_out (by rw [headerBytes_length]; omega)]

/-- After one enqueue the stored `write_idx` has advanced by one,
modulo the queue capacity. -/
theorem write_frame_read0 {m : Mem} {inp : FrameInput} {u : Nat}
    (hw : readI32 m 0 = (u : Int)) :
    readI32 (write_frame m inp) 0 = (((u + 1) % QUEUE_SIZE : Nat) : Int) := by
  rw [write_frame_eq m inp u hw]
  exact writeCtrl_read0 u _

/-- The header bytes of the written slot. -/
theorem write_frame_header {m : Mem} {inp : FrameInput} {u : Nat}
    (hw : readI32 m 0 = (u : Int)) {j : Nat} (hj : j < 20) :
    write_frame m inp (slotOffset (u : Int) + (j : Int)) =
      (headerBytes inp).getD j 0 := by
  have hs := slotOffset_natCast u
  have hu : (0 : Int) ≤ (u : Int) := Int.natCast_nonneg u
  rw [write_frame_eq m inp u hw,
      writeCtrl_out (by omega) (by omega)]
  unfold writeImage
  have hdets : writeDets inp (writeHeader inp m (slotOffset (u : Int)))
      (slotOffset (u : Int)) (slotOffset (u : Int) + (j : Int)) =
      writeHeader inp m (slotOffset (u : Int)) (slotOffset (u : Int) + (j : Int)) := by
    unfold writeDets
    exact detFold_out (by omega)
  have hhead : writeHeader inp m (slotOffset (u : Int)) (slotOffset (u : Int) + (j : Int)) =
      (headerBytes inp).getD j 0 := by
    unfold writeHeader
    rw [writeList_in (by omega) (by rw [headerBytes_length]; omega)]
    congr 1
    omega
  split
  · rename_i hlen
    rw [writeList_out (by rw [hlen, IMAGE_SIZE_eq]; omega), hdets, hhead]
  · rw [zeroFill_out (by rw [IMAGE_SIZE_eq]; omega), hdets, hhead]

/-- The detection-record bytes of the written slot. -/
theorem write_frame_det {m : Mem} {inp : FrameInput} {u : Nat}
    (hw : readI32 m 0 = (u : Int)) {i j : Nat}
    (hi : i < MAX_DETECTIONS) (hj : j < 24) :
    write_frame m inp (slotOffset (u : Int) + 20 + 24 * (i : Int) + (j : Int)) =
      (detRecordBytes inp i).getD j 0 := by
  have hs := slotOffset_natCast u
  have hu : (0 : Int) ≤ (u : Int) := Int.natCast_nonneg u
  have hi200 : i ≤ 199 := by
    have : MAX_DETECTIONS = 200 := rfl
    omega
  rw [write_frame_eq m inp u hw,
      writeCtrl_out (by omega) (by omega)]
  unfold writeImage
  have hdets : writeDets inp (writeHeader inp m (slotOffset (u : Int)))
      (slotOffset (u : Int)) (slotOffset (u : Int) + 20 + 24 * (i : Int) + (j : Int)) =
      (detRecordBytes inp i).getD j 0 := by
    unfold writeDets
    exact detFold_in hi hj
  split
  · rename_i hlen
    rw [writeList_out (by rw [hlen, IMAGE_SIZE_eq]; omega), hdets]
  · rw [zeroFill_out (by rw [IMAGE_SIZE_eq]; omega), hdets]

/-- When the image buffer has the wrong byte length, the image region of
the written slot is zero-filled. -/
theorem write_frame_img_zero {m : Mem} {inp : FrameInput} {u : Nat}
    (hw : readI32 m 0 = (u : Int)) (hbad : inp.image.length ≠ IMAGE_SIZE)
    {j : Nat} (hj : j < IMAGE_SIZE) :
    write_frame m inp (slotOffset (u : Int) + 4820 + (j : Int)) = 0 := by
  have hs := slotOffset_natCast u
  have hu : (0 : Int) ≤ (u : Int) := Int.natCast_nonneg u
  have hj' : j ≤ 1228799 := by
    have : IMAGE_SIZE = 1228800 := rfl
    omega
  rw [write_frame_eq m inp u hw,
      writeCtrl_out (by omega) (by omega)]
  unfold writeImage
  rw [if_neg hbad]
  exact zeroFill_in (by omega) (by rw [IMAGE_SIZE_eq]; omega)

-- ---------------- INITIALIZATION LEMMAS ----------------

theorem producerInit_read0 (m : Mem) : readI32 (producerInit m) 0 = 0 := by
  unfold producerInit
  have h1 : ∀ j : Int, (0 : Int) ≤ j → j < 0 + 4 →
      writeList (writeList (writeList m 0 (encInt32 0)) 4 (encInt32 0)) 8 (encInt32 0) j =
      writeList m 0 (encInt32 0) j := by
    intro j hj1 hj2
    rw [writeList_out (by rw [encInt32_length]; omega),
        writeList_out (by rw [encInt32_length]; omega)]
  rw [readI32_congr h1]
  exact readI32_writeList_encInt32 m 0 0 (by omega) (by omega)

theorem producerInit_read4 (m : Mem) : readI32 (producerInit m) 4 = 0 := by
  unfold producerInit
  have h1 : ∀ j : Int, (4 : Int) ≤ j → j < 4 + 4 →
      writeList (writeList (writeList m 0 (encInt32 0)) 4 (encInt32 0)) 8 (encInt32 0) j =
      writeList (writeList m 0 (encInt32 0)) 4 (encInt32 0) j := by
    intro j hj1 hj2
    rw [writeList_out (by rw [encInt32_length]; omega)]
  rw [readI32_congr h1]
  exact readI32_writeList_encInt32 _ 4 0 (by omega) (by omega)

theorem producerInit_read8 (m : Mem) : readI32 (producerInit m) 8 = 0 := by
  unfold producerInit
  exact readI32_writeList_encInt32 _ 8 0 (by omega) (by omega)

-- ---------------- MULTI-ENQUEUE INDUCTION LEMMAS ----------------

theorem enqueueAll_nil (m : Mem) : enqueueAll m [] = m := rfl

theorem enqueueAll_cons (m : Mem) (x : FrameInput) (l : List FrameInput) :
    enqueueAll m (x :: l) = enqueueAll (write_frame m x) l := rfl

/-- Write-index evolution: `k` enqueues advance the stored `write_idx`
by `k`, modulo the capacity. -/
theorem enqueueAll_read0 (l : List FrameInput) :
    ∀ (m : Mem) (s : Nat), readI32 m 0 = ((s % QUEUE_SIZE : Nat) : Int) →
    readI32 (enqueueAll m l) 0 = (((s + l.length) % QUEUE_SIZE : Nat) : Int) := by
  induction l with
  | nil => intro m s h; simpa using h
  | cons x t ih =>
    intro m s h
    rw [enqueueAll_cons]
    have h5 : QUEUE_SIZE = 5 := rfl
    have hstep := @write_frame_read0 m x (s % QUEUE_SIZE) h
    have hmod : (s % QUEUE_SIZE + 1) % QUEUE_SIZE = (s + 1) % QUEUE_SIZE := by
      rw [h5]
      omega
    rw [hmod] at hstep
    have hlen : s + 1 + t.length = s + (x :: t).length := by
      rw [List.length_cons]
      omega
    rw [ih (write_frame m x) (s + 1) hstep, hlen]

/-- Frame rule for a run of enqueues: bytes outside the control-block
words 0 and 2 and outside the slots consumed by the run are unchanged. -/
theorem enqueueAll_frame (l : List FrameInput) :
    ∀ (m : Mem) (s : Nat), readI32 m 0 = ((s % QUEUE_SIZE : Nat) : Int) →
    ∀ a : Int, ¬(0 ≤ a ∧ a < 4) → ¬(8 ≤ a ∧ a < 12) →
    (∀ t : Nat, s ≤ t → t < s + l.length →
      ¬(slotOffset ((t % QUEUE_SIZE : Nat) : Int) ≤ a ∧
        a < slotOffset ((t % QUEUE_SIZE : Nat) : Int) + (SLOT_SIZE : Int))) →
    enqueueAll m l a = m a := by
  induction l with
  | nil => intro m s h a h1 h2 h3; rfl
  | cons x t ih =>
    intro m s h a h1 h2 h3
    rw [enqueueAll_cons]
    have h5 : QUEUE_SIZE = 5 := rfl
    have hstep := @write_frame_read0 m x (s % QUEUE_SIZE) h
    have hmod : (s % QUEUE_SIZE + 1) % QUEUE_SIZE = (s + 1) % QUEUE_SIZE := by
      rw [h5]
      omega
    rw [hmod] at hstep
    have hrest : enqueueAll (write_frame m x) t a = write_frame m x a := by
      apply ih (write_frame m x) (s + 1) hstep a h1 h2
      intro r hr1 hr2
      exact h3 r (by omega) (by rw [List.length_cons]; omega)
    rw [hrest]
    exact write_frame_out h h1 h2 (h3 s (by omega) (by rw [List.length_cons]; omega))

/-- Slot contents after a run of at most `QUEUE_SIZE` enqueues: the `i`-th
frame of the run sits, byte-exactly, in slot `(s + i) mod QUEUE_SIZE`. -/
theorem enqueueAll_content (l : List FrameInput) :
    ∀ (m : Mem) (s : Nat), l.length ≤ QUEUE_SIZE →
    readI32 m 0 = ((s % QUEUE_SIZE : Nat) : Int) →
    ∀ (i : Nat) (hi : i < l.length),
      slotFrameSpec (enqueueAll m l)
        (slotOffset (((s + i) % QUEUE_SIZE : Nat) : Int)) (l.get ⟨i, hi⟩) := by
  induction l with
  | nil =>
    intro m s hlen h i hi
    exact absurd hi (by simp)
  | cons x t ih =>
    intro m s hlen h i hi
    have h5 : QUEUE_SIZE = 5 := rfl
    have hstep := @write_frame_read0 m x (s % QUEUE_SIZE) h
    have hmod : (s % QUEUE_SIZE + 1) % QUEUE_SIZE = (s + 1) % QUEUE_SIZE := by
      rw [h5]
      omega
    rw [hmod] at hstep
    rw [enqueueAll_cons]
    have hlent : t.length + 1 ≤ QUEUE_SIZE := by
      rw [List.length_cons] at hlen
      omega
    cases i with
    | zero =>
      have hpres : ∀ b : Int, slotOffset ((s % QUEUE_SIZE : Nat) : Int) ≤ b →
          b < slotOffset ((s % QUEUE_SIZE : Nat) : Int) + (SLOT_SIZE : Int) →
          enqueueAll (write_frame m x) t b = write_frame m x b := by
        intro b hb1 hb2
        have hsOff := slotOffset_natCast (s % QUEUE_SIZE)
        have hS : ((SLOT_SIZE : Nat) : Int) = 1233620 := rfl
        have hs5 : s % QUEUE_SIZE < 5 := by rw [h5]; omega
        apply enqueueAll_frame t (write_frame m x) (s + 1) hstep b (by omega) (by omega)
        intro r hr1 hr2
        have hrOff := slotOffset_natCast (r % QUEUE_SIZE)
        have hr5 : r % QUEUE_SIZE < 5 := by rw [h5]; omega
        have hneq : r % QUEUE_SIZE ≠ s % QUEUE_SIZE := by
          rw [h5]
          rw [h5] at hlent
          omega
        omega
      have hS : ((SLOT_SIZE : Nat) : Int) = 1233620 := rfl
      have hsOff := slotOffset_natCast (s % QUEUE_SIZE)
      simp only [Nat.add_zero]
      constructor
      · intro j hj
        rw [hpres _ (by omega) (by omega)]
        exact write_frame_header h hj
      · intro i' hi' j hj
        have hi200 : i' ≤ 199 := by
          have hM : MAX_DETECTIONS = 200 := rfl
          omega
        rw [hpres _ (by omega) (by omega)]
        exact write_frame_det h hi' hj
    | succ i' =>
      have hi'' : i' < t.length := by
        rw [List.length_cons] at hi
        omega
      have hrec := ih (write_frame m x) (s + 1) (by omega) hstep i' hi''
      have hgets : (x :: t).get ⟨i' + 1, hi⟩ = t.get ⟨i', hi''⟩ := rfl
      rw [hgets, show s + (i' + 1) = s + 1 + i' from by omega]
      exact hrec

-- ---------------- CLAIM THEOREMS ----------------

/-- C5: the addressing arithmetic.  `slot_offset(i) = 12 + i * slot_size`
with `slot_size = 20 + 200*24 + 640*640*3 = 1233620` for every slot index
`i < capacity`; the total region is `12 + 5 * slot_size` bytes; every
integer/float field is encoded in exactly 4 bytes and the header and
detection records pack tightly (20 and 24 bytes). -/
theorem c5_layout (i : Nat) (hi : i < QUEUE_SIZE) :
    SLOT_SIZE = 1233620 ∧
    SLOT_SIZE = 20 + MAX_DETECTIONS * DET_RECORD_SIZE + INPUT_WIDTH * INPUT_HEIGHT * CHANNELS ∧
    SHM_SIZE = 12 + QUEUE_SIZE * 1233620 ∧
    slotOffset (i : Int) = 12 + (i : Int) * 1233620 ∧
    (∀ v : Int, (encInt32 v).length = 4) ∧
    (∀ b : Nat, (encFloat32 b).length = 4) ∧
    (∀ inp : FrameInput, (headerBytes inp).length = 20) ∧
    (∀ (inp : FrameInput) (r : Nat), (detEntryBytes inp r).length = 24) :=
  ⟨rfl, rfl, rfl, slotOffset_natCast i, encInt32_length, encFloat32_length,
   headerBytes_length, detEntryBytes_length⟩

theorem c5_layout_witness :
    2 < QUEUE_SIZE ∧
    (SLOT_SIZE = 1233620 ∧
     SLOT_SIZE = 20 + MAX_DETECTIONS * DET_RECORD_SIZE + INPUT_WIDTH * INPUT_HEIGHT * CHANNELS ∧
     SHM_SIZE = 12 + QUEUE_SIZE * 1233620 ∧
     slotOffset ((2 : Nat) : Int) = 12 + ((2 : Nat) : Int) * 1233620 ∧
     (∀ v : Int, (encInt32 v).length = 4) ∧
     (∀ b : Nat, (encFloat32 b).length = 4) ∧
     (∀ inp : FrameInput, (headerBytes inp).length = 20) ∧
     (∀ (inp : FrameInput) (r : Nat), (detEntryBytes inp r).length = 24)) :=
  ⟨by decide, c5_layout 2 (by decide)⟩

/-- C6 counterexample: the claim says a process attaching to an
already-initialized region does not re-zero the Control Block.  The code
re-zeroes unconditionally: starting from a zeroed region, one enqueue
leaves `write_index = 1`, and running the startup initialization on that
region resets `write_index` to `0`. -/
theorem c6_counterexample :
    readI32 (write_frame (producerInit (fun _ => 0)) ⟨1, [], [], [], []⟩) 0 = 1 ∧
    readI32 (producerInit (write_frame (producerInit (fun _ => 0)) ⟨1, [], [], [], []⟩)) 0 = 0 := by
  constructor
  · decide
  · decide

/-- C6 amended: `main` (test.cpp lines 202-205) unconditionally sets
`write_index`, `read_index` and `total_written` to 0 after mapping the
region, whether or not the region was already initialized; there is no
sole-creator check. -/
theorem c6_unconditional_init (m : Mem) :
    readI32 (producerInit m) 0 = 0 ∧ readI32 (producerInit m) 4 = 0 ∧
    readI32 (producerInit m) 8 = 0 :=
  ⟨producerInit_read0 m, producerInit_read4 m, producerInit_read8 m⟩

/-- C7 counterexample: the claim says every producer-side operation leaves
`read_index` (bytes 4..7) unchanged.  The startup initialization writes
it: on a region whose bytes are all 1 (stored `read_index` value
16843009), running it leaves `read_index = 0`. -/
theorem c7_counterexample :
    readI32 (fun _ => 1 : Mem) 4 = 16843009 ∧
    readI32 (producerInit (fun _ => 1)) 4 = 0 := by
  constructor
  · decide
  · decide

/-- C7 amended: the enqueue operation (`write_frame`) never writes
`read_index`: for any state whose stored `write_index` is a natural
number, bytes 4..7 are unchanged; among producer-side operations only the
startup initialization writes `read_index` (it sets it to 0, see the
amended C6 theorem). -/
theorem c7_enqueue_preserves_read_index (m : Mem) (inp : FrameInput) (u : Nat)
    (hw : readI32 m 0 = (u : Int)) :
    ∀ a : Int, 4 ≤ a → a < 8 → write_frame m inp a = m a := by
  intro a h1 h2
  apply write_frame_out hw (by omega) (by omega)
  have hsOff := slotOffset_natCast u
  have hu := Int.natCast_nonneg u
  have hS : ((SLOT_SIZE : Nat) : Int) = 1233620 := rfl
  omega

theorem c7_enqueue_preserves_read_index_witness :
    readI32 (fun _ => 0 : Mem) 0 = ((0 : Nat) : Int) ∧
    (4 : Int) ≤ 5 ∧ (5 : Int) < 8 ∧
    write_frame (fun _ => 0) ⟨1, [], [], [], []⟩ 5 = (fun _ => 0 : Mem) 5 :=
  ⟨by decide, by decide, by decide,
   c7_enqueue_preserves_read_index (fun _ => 0) ⟨1, [], [], [], []⟩ 0 (by decide)
     5 (by decide) (by decide)⟩

/-- C9: when the three input vectors have equal length, every element
access of the detection loop uses an index below all three lengths (the
loop only dereferences positions `i < num = min(boxes.size, MAX_DETECTIONS)`),
and the stored count `num` is a function of `boxes.size()` alone. -/
theorem c9_index_bounds (inp : FrameInput)
    (hc : inp.class_ids.length = inp.boxes.length)
    (hf : inp.confs.length = inp.boxes.length) :
    (∀ i : Nat, i < numDet inp →
      i < inp.class_ids.length ∧ i < inp.confs.length ∧ i < inp.boxes.length) ∧
    (∀ inp' : FrameInput, inp.boxes.length = inp'.boxes.length →
      numDet inp = numDet inp') := by
  constructor
  · intro i hi
    unfold numDet at hi
    exact ⟨by omega, by omega, by omega⟩
  · intro inp' hlen
    unfold numDet
    rw [hlen]

theorem c9_index_bounds_witness :
    (FrameInput.mk 1 [3] [5] [⟨0, 0, 1, 1⟩] []).class_ids.length =
      (FrameInput.mk 1 [3] [5] [⟨0, 0, 1, 1⟩] []).boxes.length ∧
    (FrameInput.mk 1 [3] [5] [⟨0, 0, 1, 1⟩] []).confs.length =
      (FrameInput.mk 1 [3] [5] [⟨0, 0, 1, 1⟩] []).boxes.length ∧
    ((∀ i : Nat, i < numDet (FrameInput.mk 1 [3] [5] [⟨0, 0, 1, 1⟩] []) →
      i < (FrameInput.mk 1 [3] [5] [⟨0, 0, 1, 1⟩] []).class_ids.length ∧
      i < (FrameInput.mk 1 [3] [5] [⟨0, 0, 1, 1⟩] []).confs.length ∧
      i < (FrameInput.mk 1 [3] [5] [⟨0, 0, 1, 1⟩] []).boxes.length) ∧
    (∀ inp' : FrameInput,
      (FrameInput.mk 1 [3] [5] [⟨0, 0, 1, 1⟩] []).boxes.length = inp'.boxes.length →
      numDet (FrameInput.mk 1 [3] [5] [⟨0, 0, 1, 1⟩] []) = numDet inp')) :=
  ⟨by decide, by decide, c9_index_bounds _ (by decide) (by decide)⟩

/-- C10: one enqueue modifies at most the control-block words
`write_index` (bytes 0..3) and `total_written` (bytes 8..11) and the
`SLOT_SIZE` bytes of the slot selected by the stored `write_index`; every
byte outside those three regions — other slots, `read_index`, and
anything past the target slot — is unchanged. -/
theorem c10_frame_effect (m : Mem) (inp : FrameInput) (u : Nat)
    (hw : readI32 m 0 = (u : Int)) :
    ∀ a : Int, ¬(0 ≤ a ∧ a < 4) → ¬(8 ≤ a ∧ a < 12) →
      ¬(slotOffset (u : Int) ≤ a ∧ a < slotOffset (u : Int) + (SLOT_SIZE : Int)) →
      write_frame m inp a = m a := by
  intro a h1 h2 h3
  exact write_frame_out hw h1 h2 h3

theorem c10_frame_effect_witness :
    readI32 (fun _ => 0 : Mem) 0 = ((0 : Nat) : Int) ∧
    ¬((0 : Int) ≤ 1233632 ∧ (1233632 : Int) < 4) ∧
    ¬((8 : Int) ≤ 1233632 ∧ (1233632 : Int) < 12) ∧
    ¬(slotOffset ((0 : Nat) : Int) ≤ 1233632 ∧
      (1233632 : Int) < slotOffset ((0 : Nat) : Int) + (SLOT_SIZE : Int)) ∧
    write_frame (fun _ => 0) ⟨1, [], [], [], []⟩ 1233632 = (fun _ => 0 : Mem) 1233632 :=
  ⟨by decide, by decide, by decide, by decide,
   c10_frame_effect (fun _ => 0) ⟨1, [], [], [], []⟩ 0 (by decide) 1233632
     (by decide) (by decide) (by decide)⟩

/-- C8: the step order of one enqueue is `waitEmpty`, then `acquireLock`,
then all control-block and slot stores, then `releaseLock`, then
`signalFull`: the trace decomposes as wait/acquire, a middle consisting
solely of store events, and release/signal — so the semaphore wait
completes strictly before the lock is taken, no store happens outside the
lock, and the signal comes strictly after the release. -/
theorem c8_sync_ordering (m : Mem) (inp : FrameInput) :
    ∃ ws : List Ev,
      writeFrameTrace m inp =
        [Ev.waitEmpty, Ev.acquireLock] ++ ws ++ [Ev.releaseLock, Ev.signalFull] ∧
      ∀ e ∈ ws, ∃ off : Int, ∃ len : Nat, e = Ev.write off len := by
  refine ⟨[Ev.write (slotOffset (readI32 m 0)) 20] ++
    (List.range MAX_DETECTIONS).map
      (fun i => Ev.write (slotOffset (readI32 m 0) + 20 + 24 * (i : Int)) 24) ++
    [Ev.write (slotOffset (readI32 m 0) + 4820) IMAGE_SIZE,
     Ev.write 0 4, Ev.write 8 4], ?_, ?_⟩
  · simp [writeFrameTrace]
  · intro e he
    simp only [List.mem_append, List.mem_cons, List.mem_map, List.mem_range,
      List.mem_singleton, List.not_mem_nil, or_false] at he
    rcases he with (he | ⟨i, _, he⟩) | (he | he | he)
    · exact ⟨_, _, he⟩
    · exact ⟨_, _, he.symm⟩
    · exact ⟨_, _, he⟩
    · exact ⟨_, _, he⟩
    · exact ⟨_, _, he⟩

theorem headerBytes_getD_count (inp : FrameInput) (j : Nat) (hj : j < 4) :
    (headerBytes inp).getD (16 + j) 0 = (encInt32 ((numDet inp : Nat) : Int)).getD j 0 := by
  interval_cases j <;> rfl

theorem replicate24_getD (j : Nat) : (List.replicate 24 (0 : Nat)).getD j 0 = 0 := by
  rcases Nat.lt_or_ge j 24 with h | h
  · rw [List.getD_eq_getElem _ _ (by simpa using h), List.getElem_replicate]
  · rw [List.getD_eq_default]
    simpa using h

/-- C2: when more than `MAX_DETECTIONS` boxes are supplied, the stored
`detection_count` header field is exactly `MAX_DETECTIONS`, and the slot
holds the first `MAX_DETECTIONS` detection records in input order (all
records of the slot come from the inputs, none is a padding record); the
excess entries are simply not written — `write_frame` is total and has no
failure outcome. -/
theorem c2_truncation (m : Mem) (inp : FrameInput) (u : Nat)
    (hw : readI32 m 0 = (u : Int))
    (hlong : inp.boxes.length > MAX_DETECTIONS) :
    readI32 (write_frame m inp) (slotOffset (u : Int) + 16) = (MAX_DETECTIONS : Int) ∧
    (∀ i j : Nat, i < MAX_DETECTIONS → j < 24 →
      write_frame m inp (slotOffset (u : Int) + 20 + 24 * (i : Int) + (j : Int)) =
        (detEntryBytes inp i).getD j 0) := by
  have hnum : numDet inp = MAX_DETECTIONS := by
    have hM : MAX_DETECTIONS = 200 := rfl
    unfold numDet
    omega
  constructor
  · have hbytes : ∀ j : Nat, j < 4 →
        write_frame m inp (slotOffset (u : Int) + 16 + (j : Int)) =
          (encInt32 ((numDet inp : Nat) : Int)).getD j 0 := by
      intro j hj
      have hcast : slotOffset (u : Int) + 16 + (j : Int) =
          slotOffset (u : Int) + ((16 + j : Nat) : Int) := by
        push_cast
        ring
      rw [hcast, write_frame_header hw (by omega)]
      exact headerBytes_getD_count inp j hj
    have := @readI32_of_encInt32 (write_frame m inp) (slotOffset (u : Int) + 16)
      ((numDet inp : Nat) : Int) (by positivity)
      (by rw [hnum]; norm_num [MAX_DETECTIONS]) hbytes
    rw [this, hnum]
  · intro i j hi hj
    rw [write_frame_det hw hi hj]
    unfold detRecordBytes
    rw [if_pos (by rw [hnum]; exact hi)]

/-- C3: when fewer than `MAX_DETECTIONS` detections are supplied, every
detection record of the slot from index `count` up to `MAX_DETECTIONS - 1`
is 24 zero bytes, so the detection region is fully determined. -/
theorem c3_zero_padding (m : Mem) (inp : FrameInput) (u : Nat)
    (hw : readI32 m 0 = (u : Int))
    (hshort : inp.boxes.length < MAX_DETECTIONS) :
    ∀ i j : Nat, inp.boxes.length ≤ i → i < MAX_DETECTIONS → j < 24 →
      write_frame m inp (slotOffset (u : Int) + 20 + 24 * (i : Int) + (j : Int)) = 0 := by
  intro i j hi1 hi2 hj
  rw [write_frame_det hw hi2 hj]
  unfold detRecordBytes
  rw [if_neg (by unfold numDet; omega)]
  exact replicate24_getD j

/-- C4: when the image buffer's byte length differs from
`width*height*channels`, the enqueue still completes (the model function
is total, mirroring the code where the mismatch only logs): the image
region of the slot is all zero bytes while the header bytes and all
detection-record bytes are exactly the encodings of the inputs. -/
theorem c4_image_mismatch (m : Mem) (inp : FrameInput) (u : Nat)
    (hw : readI32 m 0 = (u : Int))
    (hbad : inp.image.length ≠ IMAGE_SIZE) :
    (∀ j : Nat, j < IMAGE_SIZE →
      write_frame m inp (slotOffset (u : Int) + 4820 + (j : Int)) = 0) ∧
    (∀ j : Nat, j < 20 →
      write_frame m inp (slotOffset (u : Int) + (j : Int)) = (headerBytes inp).getD j 0) ∧
    (∀ i j : Nat, i < MAX_DETECTIONS → j < 24 →
      write_frame m inp (slotOffset (u : Int) + 20 + 24 * (i : Int) + (j : Int)) =
        (detRecordBytes inp i).getD j 0) :=
  ⟨fun _ hj => write_frame_img_zero hw hbad hj,
   fun _ hj => write_frame_header hw hj,
   fun _ _ hi hj => write_frame_det hw hi hj⟩

theorem c2_truncation_witness :
    readI32 (fun _ => 0 : Mem) 0 = ((0 : Nat) : Int) ∧
    (FrameInput.mk 1 [] [] (List.replicate 201 ⟨0, 0, 0, 0⟩) []).boxes.length > MAX_DETECTIONS ∧
    (readI32 (write_frame (fun _ => 0) (FrameInput.mk 1 [] [] (List.replicate 201 ⟨0, 0, 0, 0⟩) []))
        (slotOffset ((0 : Nat) : Int) + 16) = (MAX_DETECTIONS : Int) ∧
     (∀ i j : Nat, i < MAX_DETECTIONS → j < 24 →
       write_frame (fun _ => 0) (FrameInput.mk 1 [] [] (List.replicate 201 ⟨0, 0, 0, 0⟩) [])
           (slotOffset ((0 : Nat) : Int) + 20 + 24 * (i : Int) + (j : Int)) =
         (detEntryBytes (FrameInput.mk 1 [] [] (List.replicate 201 ⟨0, 0, 0, 0⟩) []) i).getD j 0)) :=
  ⟨by decide, by norm_num [MAX_DETECTIONS], c2_truncation (fun _ => 0) _ 0 (by decide)
    (by norm_num [MAX_DETECTIONS])⟩

theorem c3_zero_padding_witness :
    readI32 (fun _ => 0 : Mem) 0 = ((0 : Nat) : Int) ∧
    (FrameInput.mk 7 [] [] [] []).boxes.length < MAX_DETECTIONS ∧
    (∀ i j : Nat, (FrameInput.mk 7 [] [] [] []).boxes.length ≤ i → i < MAX_DETECTIONS → j < 24 →
      write_frame (fun _ => 0) (FrameInput.mk 7 [] [] [] [])
        (slotOffset ((0 : Nat) : Int) + 20 + 24 * (i : Int) + (j : Int)) = 0) :=
  ⟨by decide, by decide, c3_zero_padding (fun _ => 0) _ 0 (by decide) (by decide)⟩

theorem c4_image_mismatch_witness :
    readI32 (fun _ => 0 : Mem) 0 = ((0 : Nat) : Int) ∧
    (FrameInput.mk 9 [] [] [] [114]).image.length ≠ IMAGE_SIZE ∧
    ((∀ j : Nat, j < IMAGE_SIZE →
      write_frame (fun _ => 0) (FrameInput.mk 9 [] [] [] [114])
        (slotOffset ((0 : Nat) : Int) + 4820 + (j : Int)) = 0) ∧
    (∀ j : Nat, j < 20 →
      write_frame (fun _ => 0) (FrameInput.mk 9 [] [] [] [114])
        (slotOffset ((0 : Nat) : Int) + (j : Int)) =
        (headerBytes (FrameInput.mk 9 [] [] [] [114])).getD j 0) ∧
    (∀ i j : Nat, i < MAX_DETECTIONS → j < 24 →
      write_frame (fun _ => 0) (FrameInput.mk 9 [] [] [] [114])
        (slotOffset ((0 : Nat) : Int) + 20 + 24 * (i : Int) + (j : Int)) =
        (detRecordBytes (FrameInput.mk 9 [] [] [] [114]) i).getD j 0)) :=
  ⟨by decide, by decide, c4_image_mismatch (fun _ => 0) _ 0 (by decide) (by decide)⟩

/-- C1: starting from a freshly initialized control block, any run of
`N ≤ QUEUE_SIZE` enqueues stores, for each `i < N`, the byte-exact encoded
header and all 200 encoded detection records of the `i`-th input frame in
slot `i` of the shared region (FIFO order), and after `k` enqueues the
stored `write_index` equals `k mod QUEUE_SIZE`. -/
theorem c1_fifo_order (m : Mem) (inputs : List FrameInput)
    (hN : inputs.length ≤ QUEUE_SIZE) :
    (∀ k : Nat, k ≤ inputs.length →
      readI32 (enqueueAll (producerInit m) (inputs.take k)) 0 =
        ((k % QUEUE_SIZE : Nat) : Int)) ∧
    (∀ (i : Nat) (hi : i < inputs.length),
      slotFrameSpec (enqueueAll (producerInit m) inputs) (slotOffset ((i : Nat) : Int))
        (inputs.get ⟨i, hi⟩)) := by
  have h0 : readI32 (producerInit m) 0 = ((0 % QUEUE_SIZE : Nat) : Int) := by
    rw [producerInit_read0]
    norm_num
  constructor
  · intro k hk
    have hlen : (inputs.take k).length = k := by
      rw [List.length_take]
      omega
    have := enqueueAll_read0 (inputs.take k) (producerInit m) 0 h0
    rw [hlen] at this
    rw [this]
    norm_num
  · intro i hi
    have h5 : QUEUE_SIZE = 5 := rfl
    have := enqueueAll_content inputs (producerInit m) 0 hN h0 i hi
    have hidx : (0 + i) % QUEUE_SIZE = i := by
      rw [h5]
      omega
    rw [hidx] at this
    exact this

theorem c1_fifo_order_witness :
    ([FrameInput.mk 1 [3] [1063004406] [⟨10, 20, 30, 40⟩] [],
      FrameInput.mk 2 [] [] [] []] : List FrameInput).length ≤ QUEUE_SIZE ∧
    ((∀ k : Nat, k ≤ ([FrameInput.mk 1 [3] [1063004406] [⟨10, 20, 30, 40⟩] [],
        FrameInput.mk 2 [] [] [] []] : List FrameInput).length →
      readI32 (enqueueAll (producerInit (fun _ => 0))
        (([FrameInput.mk 1 [3] [1063004406] [⟨10, 20, 30, 40⟩] [],
           FrameInput.mk 2 [] [] [] []] : List FrameInput).take k)) 0 =
        ((k % QUEUE_SIZE : Nat) : Int)) ∧
    (∀ (i : Nat) (hi : i < ([FrameInput.mk 1 [3] [1063004406] [⟨10, 20, 30, 40⟩] [],
        FrameInput.mk 2 [] [] [] []] : List FrameInput).length),
      slotFrameSpec (enqueueAll (producerInit (fun _ => 0))
          ([FrameInput.mk 1 [3] [1063004406] [⟨10, 20, 30, 40⟩] [],
            FrameInput.mk 2 [] [] [] []] : List FrameInput))
        (slotOffset ((i : Nat) : Int))
        (([FrameInput.mk 1 [3] [1063004406] [⟨10, 20, 30, 40⟩] [],
           FrameInput.mk 2 [] [] [] []] : List FrameInput).get ⟨i, hi⟩))) :=
  ⟨by decide, c1_fifo_order (fun _ => 0) _ (by decide)⟩
